/-
Verification of the seqan3 minimiser view
(include/seqan3/search/views/minimiser.hpp).

The view slides a window of `window_size` values over one source range (or
over the element-wise minimum of two synchronized source ranges) and lazily
yields the minimum of each window, deduplicating consecutive windows that
keep the same tracked minimiser.  The tracked minimiser is maintained by
`basic_iterator` through the fields `minimiser_value`,
`minimiser_position_offset` and the deque `window_values`, with a full
rescan (std::ranges::min_element with std::less_equal, i.e. a left-to-right
scan whose best is replaced on less-or-equal, hence rightmost-wins ties)
only when the tracked minimiser is evicted from the window.

Shallow embedding conventions:
* Source ranges are `List Nat` (the reference type of the underlying range
  is a totally ordered hash value in the source; `Nat` instantiates it).
* Iterators into a range are positions (`Nat` indices); the sentinel of the
  first range is its length.
* `basic_iterator`'s data members become the fields of `MinIterState`.
* The recursion of `next_unique_minimiser` (a while loop that advances the
  primary cursor by one per round) and of range-based iteration are
  expressed with an explicit fuel of `s1.length + 1`, which strictly
  exceeds the number of remaining positions from any reachable cursor.
* The only `throw` statements in the source are in the dual-range
  constructor (length mismatch) and in `minimiser_fn::operator()`
  (window_size == 1); those two constructors are embedded with `Except`,
  and every traversal operation is a total function, exactly as the
  traversal members of the source contain no throw.
-/
import Mathlib

/-- The data members of `minimiser_view::basic_iterator`
(minimiser.hpp, lines 380-395): the tracked minimiser value, its offset
inside the stored window, the position of the primary iterator
`urng1_iterator`, the position of the secondary iterator `urng2_iterator`,
and the stored deque `window_values`. -/
structure MinIterState where
  minimiser_value : Nat
  minimiser_position_offset : Nat
  pos1 : Nat
  pos2 : Nat
  window_values : List Nat
  deriving Repr, DecidableEq

/-- `basic_iterator::window_value` (lines 405-411): the current value is
`*urng1_iterator` for a single source, and
`std::min(*urng1_iterator, *urng2_iterator)` when a second range is given. -/
def window_value (dual : Bool) (s1 s2 : List Nat) (st : MinIterState) : Nat :=
  if dual then min (s1.getD st.pos1 0) (s2.getD st.pos2 0) else s1.getD st.pos1 0

/-- `basic_iterator::advance_window` (lines 414-419): advance the primary
iterator, and the secondary iterator as well when a second range is given. -/
def advance_window (dual : Bool) (st : MinIterState) : MinIterState :=
  { st with pos1 := st.pos1 + 1, pos2 := if dual then st.pos2 + 1 else st.pos2 }

/-- The loop of `std::ranges::min_element(window_values, std::less_equal{})`
(lines 433 and 457): the running best `(bv, bi)` is replaced by the next
element whenever that element is less than or equal to the best, so among
equal minimal values the rightmost one wins.  `i` is the index of the head
of the remaining list inside the full window. -/
def minElementLEAux : List Nat → Nat → Nat → Nat → Nat × Nat
  | [], _, bv, bi => (bv, bi)
  | x :: xs, i, bv, bi =>
    if x ≤ bv then minElementLEAux xs (i + 1) x i
    else minElementLEAux xs (i + 1) bv bi

/-- `std::ranges::min_element` with `std::less_equal` over the whole window,
returning the chosen value together with `std::distance(begin, it)`:
the first element is the initial best.  (The empty case is unreachable in
the source: both call sites scan a nonempty `window_values`.) -/
def minElementLE : List Nat → Nat × Nat
  | [] => (0, 0)
  | x :: xs => minElementLEAux xs 1 x 0

/-- The filling loop of `basic_iterator::window_first` (lines 427-431):
`n` times, push the current window value and advance. -/
def fill_window (dual : Bool) (s1 s2 : List Nat) : Nat → MinIterState → MinIterState
  | 0, st => st
  | n + 1, st =>
    fill_window dual s1 s2 n
      (advance_window dual
        { st with window_values := st.window_values ++ [window_value dual s1 s2 st] })

/-- `basic_iterator::window_first` (lines 422-436): return immediately on a
zero window size; otherwise push `window_size - 1` values advancing after
each, push one final value without advancing, and set the tracked minimiser
from the rightmost-wins scan of the stored window. -/
def window_first (dual : Bool) (s1 s2 : List Nat) (window_size : Nat)
    (st : MinIterState) : MinIterState :=
  if window_size = 0 then st
  else
    let st1 := fill_window dual s1 s2 (window_size - 1) st
    let st2 := { st1 with window_values := st1.window_values ++ [window_value dual s1 s2 st1] }
    let p := minElementLE st2.window_values
    { st2 with minimiser_value := p.1, minimiser_position_offset := p.2 }

/-- The `basic_iterator` constructor (lines 290-302): start with both
iterators at the begin of their ranges, clamp the window size to the
distance between `urng1_iterator` and `urng1_sentinel`, and run
`window_first`.  The sentinel of the primary range is `s1.length`. -/
def mkIterator (dual : Bool) (s1 s2 : List Nat) (window_size : Nat) : MinIterState :=
  window_first dual s1 s2 (min window_size s1.length)
    { minimiser_value := 0, minimiser_position_offset := 0, pos1 := 0, pos2 := 0,
      window_values := [] }

/-- `basic_iterator::next_minimiser` (lines 444-472): advance the window;
if the primary iterator reached the sentinel, return true without touching
any other state; otherwise slide the stored window (pop front, push the new
value), then: rescan and return true if the evicted value held offset 0;
adopt a strictly smaller new value at the last offset and return true;
otherwise decrement the offset and return false. -/
def next_minimiser (dual : Bool) (s1 s2 : List Nat) (st : MinIterState) :
    Bool × MinIterState :=
  let st1 := advance_window dual st
  if st1.pos1 = s1.length then (true, st1)
  else
    let new_value := window_value dual s1 s2 st1
    let st2 := { st1 with window_values := st1.window_values.tail ++ [new_value] }
    if st2.minimiser_position_offset = 0 then
      let p := minElementLE st2.window_values
      (true, { st2 with minimiser_value := p.1, minimiser_position_offset := p.2 })
    else if new_value < st2.minimiser_value then
      (true, { st2 with minimiser_value := new_value,
                        minimiser_position_offset := st2.window_values.length - 1 })
    else
      (false, { st2 with minimiser_position_offset := st2.minimiser_position_offset - 1 })

/-- The while loop of `basic_iterator::next_unique_minimiser` (lines
398-402), with explicit fuel: repeat `next_minimiser` until it reports
true.  Each round advances the primary cursor by one, so
`s1.length + 1` units of fuel are more than the rounds any in-range cursor
can take. -/
def next_unique_minimiser_aux (dual : Bool) (s1 s2 : List Nat) :
    Nat → MinIterState → MinIterState
  | 0, st => st
  | fuel + 1, st =>
    match next_minimiser dual s1 s2 st with
    | (true, st2) => st2
    | (false, st2) => next_unique_minimiser_aux dual s1 s2 fuel st2

/-- `basic_iterator::next_unique_minimiser`, the body of `operator++`. -/
def next_unique_minimiser (dual : Bool) (s1 s2 : List Nat) (st : MinIterState) :
    MinIterState :=
  next_unique_minimiser_aux dual s1 s2 (s1.length + 1) st

/-- `basic_iterator::operator*` (lines 363-366): return the tracked
minimiser value. -/
def deref (st : MinIterState) : Nat :=
  st.minimiser_value

/-- `basic_iterator::operator==(basic_iterator, basic_iterator)` (lines
310-314), transcribed literally: the left and right primary iterators are
compared, the right-hand operand's secondary iterator is compared against
itself, and the stored window sizes are compared. -/
def iter_eq (lhs rhs : MinIterState) : Bool :=
  (lhs.pos1 == rhs.pos1) && (rhs.pos2 == rhs.pos2)
    && (lhs.window_values.length == rhs.window_values.length)

/-- Iterating the view from `begin()` until the iterator compares equal to
the sentinel (`urng1_iterator == urng1_sentinel`, line 325), collecting
`operator*` before each `operator++`; fuel as in
`next_unique_minimiser_aux`. -/
def emit_aux (dual : Bool) (s1 s2 : List Nat) : Nat → MinIterState → List Nat
  | 0, _ => []
  | fuel + 1, st =>
    if st.pos1 = s1.length then []
    else deref st :: emit_aux dual s1 s2 fuel (next_unique_minimiser dual s1 s2 st)

/-- The full sequence of values yielded by iterating the minimiser view
from begin to end. -/
def view_emit (dual : Bool) (s1 s2 : List Nat) (window_size : Nat) : List Nat :=
  emit_aux dual s1 s2 (s1.length + 1) (mkIterator dual s1 s2 window_size)

/-- Values yielded by a single-source minimiser view. -/
def minimiserSingle (src : List Nat) (window_size : Nat) : List Nat :=
  view_emit false src [] window_size

/-- Values yielded by a dual-source minimiser view. -/
def minimiserDual (s1 s2 : List Nat) (window_size : Nat) : List Nat :=
  view_emit true s1 s2 window_size

/-- The data members of `minimiser_view` (lines 72-78). -/
structure MinimiserView where
  dual : Bool
  urange1 : List Nat
  urange2 : List Nat
  window_size : Nat
  deriving Repr, DecidableEq

/-- The single-range `minimiser_view` constructor (lines 104-106), which
delegates to the dual constructor with an empty second range; it contains
no throw. -/
def mkSingleView (s : List Nat) (window_size : Nat) : MinimiserView :=
  { dual := false, urange1 := s, urange2 := [], window_size := window_size }

/-- The dual-range `minimiser_view` constructor (lines 131-141): when a
second range is given it throws `std::invalid_argument` if the two ranges
do not have the same distance, before any element value is read. -/
def mkDualView (s1 s2 : List Nat) (window_size : Nat) : Except String MinimiserView :=
  if s1.length ≠ s2.length then
    Except.error "The two ranges do not have the same size."
  else
    Except.ok { dual := true, urange1 := s1, urange2 := s2, window_size := window_size }

/-- `minimiser_fn::operator()(urange1, window_size)` (lines 507-520), the
single-source adaptor: it throws `std::invalid_argument` on
`window_size == 1` and otherwise builds the view. -/
def minimiser_adaptor (s : List Nat) (window_size : Nat) : Except String MinimiserView :=
  if window_size = 1 then
    Except.error
      "The chosen window_size is not valid. Please choose a value greater than 1 or use two ranges."
  else
    Except.ok (mkSingleView s window_size)

/-- Values yielded by iterating a constructed view. -/
def viewOut (v : MinimiserView) : List Nat :=
  view_emit v.dual v.urange1 v.urange2 v.window_size

/-- The effective stream of per-position window values: the first source
itself, or the element-wise minimum of the two synchronized sources. -/
def valsOf (dual : Bool) (s1 s2 : List Nat) : List Nat :=
  if dual then List.zipWith min s1 s2 else s1

/-- The contiguous window of length `w` whose last element sits at
position `e` of `vals`. -/
def windowSlice (vals : List Nat) (w e : Nat) : List Nat :=
  (vals.drop (e + 1 - w)).take w

/-- `v` is the minimum of the list `l`. -/
def IsMinOf (v : Nat) (l : List Nat) : Prop :=
  v ∈ l ∧ ∀ x ∈ l, v ≤ x

/-! ### List index helpers -/

lemma getD_eq_getElem_zero (l : List Nat) (i : Nat) (h : i < l.length) :
    l.getD i 0 = l[i] := by
  rw [List.getD_eq_getElem?_getD, List.getElem?_eq_getElem h]
  rfl

lemma getD_drop (l : List Nat) : ∀ (m n : Nat), (l.drop m).getD n 0 = l.getD (m + n) 0 := by
  induction l with
  | nil => intro m n; cases m <;> simp
  | cons a l ih =>
    intro m n
    cases m with
    | zero => simp
    | succ m =>
      have h : m + 1 + n = (m + n) + 1 := by omega
      rw [h, List.getD_cons_succ, List.drop_succ_cons, ih m n]

lemma getD_take (l : List Nat) : ∀ (k j : Nat), j < k → (l.take k).getD j 0 = l.getD j 0 := by
  induction l with
  | nil => intro k j _; simp
  | cons a l ih =>
    intro k j hj
    cases k with
    | zero => omega
    | succ k =>
      cases j with
      | zero => simp
      | succ j => simpa using ih k j (by omega)

lemma drop_tail_eq (l : List Nat) (n : Nat) : (l.drop n).tail = l.drop (n + 1) := by
  rw [← List.drop_one, List.drop_drop]

lemma take_tail_eq (l : List Nat) (k : Nat) : (l.take (k + 1)).tail = l.tail.take k := by
  cases l <;> simp

lemma take_concat_getD (l : List Nat) :
    ∀ k : Nat, k < l.length → l.take k ++ [l.getD k 0] = l.take (k + 1) := by
  induction l with
  | nil => intro k hk; simp at hk
  | cons a l ih =>
    intro k hk
    cases k with
    | zero => simp
    | succ k =>
      simp only [List.take_succ_cons, List.getD_cons_succ, List.cons_append,
        List.cons.injEq, true_and]
      exact ih k (by simpa using hk)

lemma getD_mem (l : List Nat) (i : Nat) (h : i < l.length) : l.getD i 0 ∈ l := by
  rw [getD_eq_getElem_zero l i h]
  exact List.getElem_mem h

lemma le_all_of_forall_getD (l : List Nat) (v : Nat)
    (h : ∀ i, i < l.length → v ≤ l.getD i 0) : ∀ x ∈ l, v ≤ x := by
  intro x hx
  obtain ⟨n, hn, rfl⟩ := List.mem_iff_getElem.mp hx
  rw [← getD_eq_getElem_zero l n hn]
  exact h n hn

/-! ### Window slices -/

lemma windowSlice_length (vals : List Nat) (w e : Nat) (hwe : w ≤ e + 1)
    (he : e < vals.length) : (windowSlice vals w e).length = w := by
  simp only [windowSlice, List.length_take, List.length_drop]
  omega

lemma windowSlice_getD (vals : List Nat) (w e j : Nat) (hj : j < w) :
    (windowSlice vals w e).getD j 0 = vals.getD (e + 1 - w + j) 0 := by
  rw [windowSlice, getD_take _ _ _ hj, getD_drop]

lemma windowSlice_full (vals : List Nat) (w : Nat) (hw : 1 ≤ w) :
    windowSlice vals w (w - 1) = vals.take w := by
  have h : w - 1 + 1 - w = 0 := by omega
  rw [windowSlice, h, List.drop_zero]

lemma windowSlice_slide (vals : List Nat) (w e : Nat) (hw : 1 ≤ w) (hwe : w ≤ e + 1)
    (he : e + 1 < vals.length) :
    (windowSlice vals w e).tail ++ [vals.getD (e + 1) 0] = windowSlice vals w (e + 1) := by
  obtain ⟨k, rfl⟩ : ∃ k, w = k + 1 := ⟨w - 1, by omega⟩
  unfold windowSlice
  rw [take_tail_eq, drop_tail_eq]
  have ha : e + 1 - (k + 1) + 1 = e + 1 - k := by omega
  have ha2 : e + 1 + 1 - (k + 1) = e + 1 - k := by omega
  rw [ha, ha2]
  have hb : vals.getD (e + 1) 0 = (vals.drop (e + 1 - k)).getD k 0 := by
    rw [getD_drop]
    have : e + 1 - k + k = e + 1 := by omega
    rw [this]
  rw [hb]
  exact take_concat_getD _ k (by simp [List.length_drop]; omega)

/-! ### The rightmost-wins scan -/

lemma minElementLEAux_spec (w : List Nat) :
    ∀ (l : List Nat) (i bv bi : Nat),
      w.drop i = l → i ≤ w.length → bi < i → w.getD bi 0 = bv →
      (∀ j, j < i → bv ≤ w.getD j 0) →
      (∀ j, bi < j → j < i → bv < w.getD j 0) →
      (minElementLEAux l i bv bi).2 < w.length ∧
        w.getD (minElementLEAux l i bv bi).2 0 = (minElementLEAux l i bv bi).1 ∧
        (∀ j, j < w.length → (minElementLEAux l i bv bi).1 ≤ w.getD j 0) ∧
        (∀ j, (minElementLEAux l i bv bi).2 < j → j < w.length →
          (minElementLEAux l i bv bi).1 < w.getD j 0) := by
  intro l
  induction l with
  | nil =>
    intro i bv bi hdrop hi hbi hval hle hstrict
    have hiw : i = w.length := by
      have hlen := congrArg List.length hdrop
      simp only [List.length_drop, List.length_nil] at hlen
      omega
    subst hiw
    subst hval
    exact ⟨hbi, rfl, fun j hj => hle j hj, fun j h1 h2 => hstrict j h1 h2⟩
  | cons x xs ih =>
    intro i bv bi hdrop hi hbi hval hle hstrict
    have hilt : i < w.length := by
      have hlen := congrArg List.length hdrop
      simp only [List.length_drop, List.length_cons] at hlen
      omega
    have hx : w.getD i 0 = x := by
      have h0 : (w.drop i).getD 0 0 = x := by rw [hdrop]; rfl
      rw [getD_drop] at h0
      simpa using h0
    have hxs : w.drop (i + 1) = xs := by
      rw [← drop_tail_eq, hdrop]
      rfl
    by_cases hc : x ≤ bv
    · simp only [minElementLEAux, if_pos hc]
      refine ih (i + 1) x i hxs (by omega) (by omega) hx ?_ ?_
      · intro j hj
        rcases Nat.lt_succ_iff_lt_or_eq.mp hj with hj2 | hj2
        · exact le_trans hc (hle j hj2)
        · subst hj2; rw [hx]
      · intro j h1 h2; omega
    · simp only [minElementLEAux, if_neg hc]
      refine ih (i + 1) bv bi hxs (by omega) (by omega) hval ?_ ?_
      · intro j hj
        rcases Nat.lt_succ_iff_lt_or_eq.mp hj with hj2 | hj2
        · exact hle j hj2
        · subst hj2; rw [hx]; omega
      · intro j h1 h2
        rcases Nat.lt_succ_iff_lt_or_eq.mp h2 with hj2 | hj2
        · exact hstrict j h1 hj2
        · subst hj2; rw [hx]; omega

lemma minElementLE_spec (l : List Nat) (hl : 1 ≤ l.length) :
    (minElementLE l).2 < l.length ∧
      l.getD (minElementLE l).2 0 = (minElementLE l).1 ∧
      (∀ j, j < l.length → (minElementLE l).1 ≤ l.getD j 0) ∧
      (∀ j, (minElementLE l).2 < j → j < l.length →
        (minElementLE l).1 < l.getD j 0) := by
  cases l with
  | nil => simp at hl
  | cons x xs =>
    have h := minElementLEAux_spec (x :: xs) xs 1 x 0 rfl (by simp) (by omega) (by rfl)
      (fun j hj => by
        have hj0 : j = 0 := by omega
        subst hj0; rfl)
      (fun j h1 h2 => by omega)
    exact h

/-! ### Invariants of iterator states

`WindowInv` records how the stored deque `window_values` relates to the
underlying sources while the primary cursor is in range: it is exactly the
slice of the per-position window values (`valsOf`) of length
`min window_size s1.length` ending at the primary cursor.  `WeakInv` adds
that the tracked minimiser value sits in the window at the tracked offset
and is a minimum of the window; it holds at every intermediate round of the
`next_unique_minimiser` loop.  `StrongInv` adds the rightmost-wins
property (everything after the tracked offset is strictly larger); it
holds after construction and after every completed increment. -/

structure WindowInv (dual : Bool) (s1 s2 : List Nat) (w : Nat) (st : MinIterState) :
    Prop where
  hlen2 : dual = true → s2.length = s1.length
  hpos2 : dual = true → st.pos2 = st.pos1
  hwge : 1 ≤ min w s1.length
  hwle : min w s1.length ≤ st.pos1 + 1
  hplt : st.pos1 < s1.length
  hwin : st.window_values = windowSlice (valsOf dual s1 s2) (min w s1.length) st.pos1

structure WeakInv (dual : Bool) (s1 s2 : List Nat) (w : Nat) (st : MinIterState)
    extends WindowInv dual s1 s2 w st : Prop where
  hoff : st.minimiser_position_offset < st.window_values.length
  hval : st.window_values.getD st.minimiser_position_offset 0 = st.minimiser_value
  hmin : ∀ i, i < st.window_values.length →
    st.minimiser_value ≤ st.window_values.getD i 0

structure StrongInv (dual : Bool) (s1 s2 : List Nat) (w : Nat) (st : MinIterState)
    extends WeakInv dual s1 s2 w st : Prop where
  hright : ∀ i, st.minimiser_position_offset < i → i < st.window_values.length →
    st.minimiser_value < st.window_values.getD i 0

lemma valsOf_length (dual : Bool) (s1 s2 : List Nat)
    (h : dual = true → s2.length = s1.length) : (valsOf dual s1 s2).length = s1.length := by
  cases dual with
  | false => rfl
  | true =>
    simp only [valsOf, if_pos, List.length_zipWith]
    rw [h rfl]
    omega

lemma getD_zipWith_min (s1 : List Nat) :
    ∀ (s2 : List Nat) (p : Nat), p < s1.length → p < s2.length →
      (List.zipWith min s1 s2).getD p 0 = min (s1.getD p 0) (s2.getD p 0) := by
  induction s1 with
  | nil => intro s2 p h1 _; simp at h1
  | cons a s1 ih =>
    intro s2 p h1 h2
    cases s2 with
    | nil => simp at h2
    | cons b s2 =>
      cases p with
      | zero => rfl
      | succ p =>
        simp only [List.zipWith_cons_cons, List.getD_cons_succ]
        exact ih s2 p (by simpa using h1) (by simpa using h2)

lemma window_value_eq (dual : Bool) (s1 s2 : List Nat) (st : MinIterState)
    (h2 : dual = true → s2.length = s1.length)
    (hp : dual = true → st.pos2 = st.pos1)
    (hlt : st.pos1 < s1.length) :
    window_value dual s1 s2 st = (valsOf dual s1 s2).getD st.pos1 0 := by
  cases dual with
  | false => rfl
  | true =>
    simp only [window_value, valsOf, if_pos]
    rw [hp rfl, getD_zipWith_min s1 s2 st.pos1 hlt (by rw [h2 rfl]; exact hlt)]

lemma WindowInv.win_len {dual : Bool} {s1 s2 : List Nat} {w : Nat} {st : MinIterState}
    (h : WindowInv dual s1 s2 w st) :
    st.window_values.length = min w s1.length := by
  rw [h.hwin]
  exact windowSlice_length _ _ _ h.hwle (by rw [valsOf_length dual s1 s2 h.hlen2]; exact h.hplt)

/-! ### Branch equations for next_minimiser -/

lemma next_minimiser_eq_end (dual : Bool) (s1 s2 : List Nat) (st : MinIterState)
    (h : st.pos1 + 1 = s1.length) :
    next_minimiser dual s1 s2 st = (true, advance_window dual st) := by
  unfold next_minimiser
  rw [if_pos (by simp only [advance_window]; exact h)]

lemma next_minimiser_eq_rescan (dual : Bool) (s1 s2 : List Nat) (st : MinIterState)
    (h : st.pos1 + 1 ≠ s1.length) (hoff : st.minimiser_position_offset = 0) :
    next_minimiser dual s1 s2 st =
      (true,
        { minimiser_value :=
            (minElementLE (st.window_values.tail
              ++ [window_value dual s1 s2 (advance_window dual st)])).1,
          minimiser_position_offset :=
            (minElementLE (st.window_values.tail
              ++ [window_value dual s1 s2 (advance_window dual st)])).2,
          pos1 := st.pos1 + 1,
          pos2 := if dual then st.pos2 + 1 else st.pos2,
          window_values := st.window_values.tail
            ++ [window_value dual s1 s2 (advance_window dual st)] }) := by
  unfold next_minimiser
  rw [if_neg (by simp only [advance_window]; exact h)]
  simp only [advance_window, hoff, if_pos]

lemma next_minimiser_eq_newmin (dual : Bool) (s1 s2 : List Nat) (st : MinIterState)
    (h : st.pos1 + 1 ≠ s1.length) (hoff : st.minimiser_position_offset ≠ 0)
    (hlt : window_value dual s1 s2 (advance_window dual st) < st.minimiser_value) :
    next_minimiser dual s1 s2 st =
      (true,
        { minimiser_value := window_value dual s1 s2 (advance_window dual st),
          minimiser_position_offset :=
            (st.window_values.tail
              ++ [window_value dual s1 s2 (advance_window dual st)]).length - 1,
          pos1 := st.pos1 + 1,
          pos2 := if dual then st.pos2 + 1 else st.pos2,
          window_values := st.window_values.tail
            ++ [window_value dual s1 s2 (advance_window dual st)] }) := by
  unfold next_minimiser
  rw [if_neg (by simp only [advance_window]; exact h)]
  simp only [advance_window] at hlt ⊢
  rw [if_neg hoff, if_pos hlt]

lemma next_minimiser_eq_shift (dual : Bool) (s1 s2 : List Nat) (st : MinIterState)
    (h : st.pos1 + 1 ≠ s1.length) (hoff : st.minimiser_position_offset ≠ 0)
    (hge : ¬ window_value dual s1 s2 (advance_window dual st) < st.minimiser_value) :
    next_minimiser dual s1 s2 st =
      (false,
        { minimiser_value := st.minimiser_value,
          minimiser_position_offset := st.minimiser_position_offset - 1,
          pos1 := st.pos1 + 1,
          pos2 := if dual then st.pos2 + 1 else st.pos2,
          window_values := st.window_values.tail
            ++ [window_value dual s1 s2 (advance_window dual st)] }) := by
  unfold next_minimiser
  rw [if_neg (by simp only [advance_window]; exact h)]
  simp only [advance_window] at hge ⊢
  rw [if_neg hoff, if_neg hge]

lemma weakInv_mk (dual : Bool) (s1 s2 : List Nat) (w : Nat)
    (mv off p1 p2 : Nat) (win : List Nat)
    (hlen2 : dual = true → s2.length = s1.length)
    (hpos2 : dual = true → p2 = p1)
    (hwge : 1 ≤ min w s1.length)
    (hwle : min w s1.length ≤ p1 + 1)
    (hplt : p1 < s1.length)
    (hwin : win = windowSlice (valsOf dual s1 s2) (min w s1.length) p1)
    (hoff : off < win.length)
    (hval : win.getD off 0 = mv)
    (hmin : ∀ i, i < win.length → mv ≤ win.getD i 0) :
    WeakInv dual s1 s2 w (MinIterState.mk mv off p1 p2 win) :=
  ⟨⟨hlen2, hpos2, hwge, hwle, hplt, hwin⟩, hoff, hval, hmin⟩

lemma strongInv_mk (dual : Bool) (s1 s2 : List Nat) (w : Nat)
    (mv off p1 p2 : Nat) (win : List Nat)
    (hlen2 : dual = true → s2.length = s1.length)
    (hpos2 : dual = true → p2 = p1)
    (hwge : 1 ≤ min w s1.length)
    (hwle : min w s1.length ≤ p1 + 1)
    (hplt : p1 < s1.length)
    (hwin : win = windowSlice (valsOf dual s1 s2) (min w s1.length) p1)
    (hoff : off < win.length)
    (hval : win.getD off 0 = mv)
    (hmin : ∀ i, i < win.length → mv ≤ win.getD i 0)
    (hright : ∀ i, off < i → i < win.length → mv < win.getD i 0) :
    StrongInv dual s1 s2 w (MinIterState.mk mv off p1 p2 win) :=
  ⟨⟨⟨hlen2, hpos2, hwge, hwle, hplt, hwin⟩, hoff, hval, hmin⟩, hright⟩

/-- One round of the `next_unique_minimiser` loop: from a state satisfying
`WeakInv`, either the primary cursor exhausts the range (and the round
only advances the cursors), or the slid state satisfies `WeakInv` again,
with `StrongInv` whenever the round reports true. -/
lemma next_minimiser_spec (dual : Bool) (s1 s2 : List Nat) (w : Nat) (st : MinIterState)
    (hst : WeakInv dual s1 s2 w st) :
    (st.pos1 + 1 = s1.length ∧
      next_minimiser dual s1 s2 st = (true, advance_window dual st)) ∨
    (st.pos1 + 1 < s1.length ∧
      (next_minimiser dual s1 s2 st).2.pos1 = st.pos1 + 1 ∧
      WeakInv dual s1 s2 w (next_minimiser dual s1 s2 st).2 ∧
      ((next_minimiser dual s1 s2 st).1 = true →
        StrongInv dual s1 s2 w (next_minimiser dual s1 s2 st).2)) := by
  by_cases hend : st.pos1 + 1 = s1.length
  · exact Or.inl ⟨hend, next_minimiser_eq_end dual s1 s2 st hend⟩
  · have hplt := hst.hplt
    have hlt : st.pos1 + 1 < s1.length := by omega
    have hvlen : (valsOf dual s1 s2).length = s1.length := valsOf_length dual s1 s2 hst.hlen2
    have hwlen : st.window_values.length = min w s1.length := hst.toWindowInv.win_len
    have hW1 : 1 ≤ min w s1.length := hst.hwge
    have hWle : min w s1.length ≤ st.pos1 + 1 := hst.hwle
    have hadv2 : dual = true → (advance_window dual st).pos2 = (advance_window dual st).pos1 := by
      intro hd
      simp only [advance_window, hd, if_pos]
      rw [hst.hpos2 hd]
    have hnv : window_value dual s1 s2 (advance_window dual st)
        = (valsOf dual s1 s2).getD (st.pos1 + 1) 0 := by
      have h := window_value_eq dual s1 s2 (advance_window dual st) hst.hlen2 hadv2
        (by simp only [advance_window]; exact hlt)
      simpa only [advance_window] using h
    have hslide : st.window_values.tail ++ [window_value dual s1 s2 (advance_window dual st)]
        = windowSlice (valsOf dual s1 s2) (min w s1.length) (st.pos1 + 1) := by
      rw [hnv, hst.hwin]
      exact windowSlice_slide _ _ _ hW1 hWle (by rw [hvlen]; exact hlt)
    have hnwlen : (st.window_values.tail
        ++ [window_value dual s1 s2 (advance_window dual st)]).length = min w s1.length := by
      rw [hslide]
      exact windowSlice_length _ _ _ (by omega) (by rw [hvlen]; exact hlt)
    have hnewD : ∀ j, j < min w s1.length →
        (st.window_values.tail
          ++ [window_value dual s1 s2 (advance_window dual st)]).getD j 0
        = (valsOf dual s1 s2).getD (st.pos1 + 2 - min w s1.length + j) 0 := by
      intro j hj
      rw [hslide, windowSlice_getD _ _ _ _ hj]
    have holdD : ∀ j, j < min w s1.length →
        st.window_values.getD j 0
        = (valsOf dual s1 s2).getD (st.pos1 + 1 - min w s1.length + j) 0 := by
      intro j hj
      rw [hst.hwin, windowSlice_getD _ _ _ _ hj]
    have hshiftD : ∀ j, j + 1 < min w s1.length →
        (st.window_values.tail
          ++ [window_value dual s1 s2 (advance_window dual st)]).getD j 0
        = st.window_values.getD (j + 1) 0 := by
      intro j hj
      rw [hnewD j (by omega), holdD (j + 1) hj]
      have harg : st.pos1 + 2 - min w s1.length + j
          = st.pos1 + 1 - min w s1.length + (j + 1) := by omega
      rw [harg]
    have hlastD : (st.window_values.tail
        ++ [window_value dual s1 s2 (advance_window dual st)]).getD (min w s1.length - 1) 0
        = window_value dual s1 s2 (advance_window dual st) := by
      rw [hnewD _ (by omega), hnv]
      have harg : st.pos1 + 2 - min w s1.length + (min w s1.length - 1) = st.pos1 + 1 := by
        omega
      rw [harg]
    by_cases hoff0 : st.minimiser_position_offset = 0
    · -- the evicted value held offset 0: full rescan, reports true
      have heq := next_minimiser_eq_rescan dual s1 s2 st hend hoff0
      rw [heq]
      have hspec := minElementLE_spec
        (st.window_values.tail ++ [window_value dual s1 s2 (advance_window dual st)])
        (by rw [hnwlen]; omega)
      have hstrong := strongInv_mk dual s1 s2 w
        (minElementLE (st.window_values.tail
          ++ [window_value dual s1 s2 (advance_window dual st)])).1
        (minElementLE (st.window_values.tail
          ++ [window_value dual s1 s2 (advance_window dual st)])).2
        (st.pos1 + 1) (if dual then st.pos2 + 1 else st.pos2)
        (st.window_values.tail ++ [window_value dual s1 s2 (advance_window dual st)])
        hst.hlen2 (fun hd => by simp [hd, hst.hpos2 hd]) hst.hwge (by omega) hlt hslide
        hspec.1 hspec.2.1 (fun i hi => hspec.2.2.1 i hi)
        (fun i h1 h2 => hspec.2.2.2 i h1 h2)
      exact Or.inr ⟨hlt, rfl, hstrong.toWeakInv, fun _ => hstrong⟩
    · by_cases hnewlt : window_value dual s1 s2 (advance_window dual st) < st.minimiser_value
      · -- strictly smaller new value: adopt it at the last offset, reports true
        have heq := next_minimiser_eq_newmin dual s1 s2 st hend hoff0 hnewlt
        rw [heq]
        have hstrong := strongInv_mk dual s1 s2 w
          (window_value dual s1 s2 (advance_window dual st))
          ((st.window_values.tail
            ++ [window_value dual s1 s2 (advance_window dual st)]).length - 1)
          (st.pos1 + 1) (if dual then st.pos2 + 1 else st.pos2)
          (st.window_values.tail ++ [window_value dual s1 s2 (advance_window dual st)])
          hst.hlen2 (fun hd => by simp [hd, hst.hpos2 hd]) hst.hwge (by omega) hlt hslide
          (by rw [hnwlen]; omega)
          (by rw [hnwlen, hlastD])
          (fun i hi => by
            rw [hnwlen] at hi
            by_cases hilast : i = min w s1.length - 1
            · subst hilast
              rw [hlastD]
            · have hi2 : i + 1 < min w s1.length := by omega
              rw [hshiftD i hi2]
              have hold := hst.hmin (i + 1) (by rw [hwlen]; exact hi2)
              omega)
          (fun i h1 h2 => by
            rw [hnwlen] at h1 h2
            omega)
        exact Or.inr ⟨hlt, rfl, hstrong.toWeakInv, fun _ => hstrong⟩
      · -- unchanged minimiser: shift the offset, reports false
        have heq := next_minimiser_eq_shift dual s1 s2 st hend hoff0 hnewlt
        rw [heq]
        have hoffW : st.minimiser_position_offset < min w s1.length := by
          rw [← hwlen]; exact hst.hoff
        have hweak := weakInv_mk dual s1 s2 w
          st.minimiser_value (st.minimiser_position_offset - 1)
          (st.pos1 + 1) (if dual then st.pos2 + 1 else st.pos2)
          (st.window_values.tail ++ [window_value dual s1 s2 (advance_window dual st)])
          hst.hlen2 (fun hd => by simp [hd, hst.hpos2 hd]) hst.hwge (by omega) hlt hslide
          (by rw [hnwlen]; omega)
          (by
            have hi2 : st.minimiser_position_offset - 1 + 1 < min w s1.length := by omega
            rw [hshiftD _ hi2]
            have harg : st.minimiser_position_offset - 1 + 1
                = st.minimiser_position_offset := by omega
            rw [harg, hst.hval])
          (fun i hi => by
            rw [hnwlen] at hi
            by_cases hilast : i = min w s1.length - 1
            · subst hilast
              rw [hlastD]
              omega
            · have hi2 : i + 1 < min w s1.length := by omega
              rw [hshiftD i hi2]
              exact hst.hmin (i + 1) (by rw [hwlen]; exact hi2))
        refine Or.inr ⟨hlt, rfl, hweak, ?_⟩
        intro hc
        simp at hc

/-- The `next_unique_minimiser` loop, from any state satisfying `WeakInv`
and with enough fuel, strictly advances the primary cursor and ends either
exhausted or in a state satisfying `StrongInv`. -/
lemma next_unique_minimiser_aux_spec (dual : Bool) (s1 s2 : List Nat) (w : Nat) :
    ∀ (fuel : Nat) (st : MinIterState), WeakInv dual s1 s2 w st →
      s1.length - st.pos1 ≤ fuel →
      st.pos1 < (next_unique_minimiser_aux dual s1 s2 fuel st).pos1 ∧
      ((next_unique_minimiser_aux dual s1 s2 fuel st).pos1 = s1.length ∨
        StrongInv dual s1 s2 w (next_unique_minimiser_aux dual s1 s2 fuel st)) := by
  intro fuel
  induction fuel with
  | zero =>
    intro st hst hfuel
    exact absurd hst.hplt (by omega)
  | succ fuel ih =>
    intro st hst hfuel
    have hplt := hst.hplt
    rcases next_minimiser_spec dual s1 s2 w st hst with ⟨hend, heq⟩ | ⟨hlt, hpos, hweak, hstrong⟩
    · simp only [next_unique_minimiser_aux, heq]
      constructor
      · simp [advance_window]
      · left
        simp only [advance_window]
        exact hend
    · rcases hb : next_minimiser dual s1 s2 st with ⟨b, st2⟩
      rw [hb] at hpos hweak hstrong
      have hpos2 : st2.pos1 = st.pos1 + 1 := hpos
      have hweak2 : WeakInv dual s1 s2 w st2 := hweak
      cases b with
      | true =>
        have hs2 : StrongInv dual s1 s2 w st2 := hstrong rfl
        simp only [next_unique_minimiser_aux, hb]
        exact ⟨by omega, Or.inr hs2⟩
      | false =>
        have hrec := ih st2 hweak2 (by omega)
        simp only [next_unique_minimiser_aux, hb]
        exact ⟨by omega, hrec.2⟩

lemma next_unique_minimiser_spec (dual : Bool) (s1 s2 : List Nat) (w : Nat)
    (st : MinIterState) (hst : WeakInv dual s1 s2 w st) :
    st.pos1 < (next_unique_minimiser dual s1 s2 st).pos1 ∧
    ((next_unique_minimiser dual s1 s2 st).pos1 = s1.length ∨
      StrongInv dual s1 s2 w (next_unique_minimiser dual s1 s2 st)) :=
  next_unique_minimiser_aux_spec dual s1 s2 w (s1.length + 1) st hst (by omega)

lemma drop_take_succ (l : List Nat) (p n : Nat) (h : p < l.length) :
    (l.drop p).take (n + 1) = l.getD p 0 :: (l.drop (p + 1)).take n := by
  rw [List.drop_eq_getElem_cons h, List.take_succ_cons, getD_eq_getElem_zero l p h]

/-- The filling loop of `window_first` advances the cursors `n` positions
and appends exactly the values at positions `pos1, …, pos1 + n - 1`. -/
lemma fill_window_spec (dual : Bool) (s1 s2 : List Nat)
    (h2 : dual = true → s2.length = s1.length) :
    ∀ (n : Nat) (st : MinIterState), (dual = true → st.pos2 = st.pos1) →
      st.pos1 + n ≤ s1.length →
      (fill_window dual s1 s2 n st).pos1 = st.pos1 + n ∧
      (fill_window dual s1 s2 n st).pos2 = (if dual then st.pos2 + n else st.pos2) ∧
      (fill_window dual s1 s2 n st).minimiser_value = st.minimiser_value ∧
      (fill_window dual s1 s2 n st).minimiser_position_offset
        = st.minimiser_position_offset ∧
      (fill_window dual s1 s2 n st).window_values
        = st.window_values ++ ((valsOf dual s1 s2).drop st.pos1).take n := by
  intro n
  induction n with
  | zero =>
    intro st hp hle
    simp [fill_window]
  | succ n ih =>
    intro st hp hle
    have hvlen : (valsOf dual s1 s2).length = s1.length := valsOf_length dual s1 s2 h2
    have hplt : st.pos1 < s1.length := by omega
    have hwv : window_value dual s1 s2 st = (valsOf dual s1 s2).getD st.pos1 0 :=
      window_value_eq dual s1 s2 st h2 hp hplt
    have hst2 : (advance_window dual
        { st with window_values := st.window_values ++ [window_value dual s1 s2 st] }).pos1
        = st.pos1 + 1 := by
      simp [advance_window]
    have hp2 : dual = true → (advance_window dual
        { st with window_values := st.window_values ++ [window_value dual s1 s2 st] }).pos2
        = (advance_window dual
          { st with window_values := st.window_values ++ [window_value dual s1 s2 st] }).pos1 := by
      intro hd
      simp [advance_window, hd, hp hd]
    have hrec := ih
      (advance_window dual
        { st with window_values := st.window_values ++ [window_value dual s1 s2 st] })
      hp2 (by simp only [advance_window]; omega)
    simp only [fill_window]
    simp only [advance_window] at hrec ⊢
    refine ⟨by rw [hrec.1]; omega, ?_, by rw [hrec.2.2.1], by rw [hrec.2.2.2.1], ?_⟩
    · rw [hrec.2.1]
      cases dual with
      | false => rfl
      | true =>
        show st.pos2 + 1 + n = st.pos2 + (n + 1)
        omega
    · rw [hrec.2.2.2.2]
      rw [List.append_assoc, List.singleton_append, hwv,
        ← drop_take_succ (valsOf dual s1 s2) st.pos1 n (by omega)]

/-- After construction on a nonempty source with a positive window size,
the iterator satisfies `StrongInv`, its cursor sits on the last position
of the first window, and the stored window is the first
`min window_size s1.length` combined values. -/
lemma mkIterator_spec (dual : Bool) (s1 s2 : List Nat) (w : Nat)
    (hw : 1 ≤ w) (hN : 1 ≤ s1.length) (h2 : dual = true → s2.length = s1.length) :
    StrongInv dual s1 s2 w (mkIterator dual s1 s2 w) ∧
    (mkIterator dual s1 s2 w).pos1 = min w s1.length - 1 ∧
    (mkIterator dual s1 s2 w).window_values
      = (valsOf dual s1 s2).take (min w s1.length) := by
  have hvlen : (valsOf dual s1 s2).length = s1.length := valsOf_length dual s1 s2 h2
  have hW1 : 1 ≤ min w s1.length := by omega
  have hWN : min w s1.length ≤ s1.length := by omega
  have hfill := fill_window_spec dual s1 s2 h2 (min w s1.length - 1)
    { minimiser_value := 0, minimiser_position_offset := 0, pos1 := 0, pos2 := 0,
      window_values := [] }
    (by intro _; rfl) (by show (0 : Nat) + (min w s1.length - 1) ≤ s1.length; omega)
  have hWne : ¬ (min w s1.length = 0) := by omega
  have hstep : mkIterator dual s1 s2 w =
      (let st1 := fill_window dual s1 s2 (min w s1.length - 1)
        { minimiser_value := 0, minimiser_position_offset := 0, pos1 := 0, pos2 := 0,
          window_values := [] };
       let st2 := { st1 with
         window_values := st1.window_values ++ [window_value dual s1 s2 st1] };
       let p := minElementLE st2.window_values;
       { st2 with minimiser_value := p.1, minimiser_position_offset := p.2 }) := by
    unfold mkIterator window_first
    rw [if_neg hWne]
  simp only [Nat.zero_add, List.drop_zero, List.nil_append] at hfill
  have hpos1 : (mkIterator dual s1 s2 w).pos1 = min w s1.length - 1 := by
    rw [hstep]
    show (fill_window dual s1 s2 (min w s1.length - 1)
      { minimiser_value := 0, minimiser_position_offset := 0, pos1 := 0, pos2 := 0,
        window_values := [] }).pos1 = min w s1.length - 1
    rw [hfill.1]
  have hpos2 : (mkIterator dual s1 s2 w).pos2
      = (if dual then min w s1.length - 1 else 0) := by
    rw [hstep]
    show (fill_window dual s1 s2 (min w s1.length - 1)
      { minimiser_value := 0, minimiser_position_offset := 0, pos1 := 0, pos2 := 0,
        window_values := [] }).pos2 = (if dual then min w s1.length - 1 else 0)
    rw [hfill.2.1]
  have hlastv : window_value dual s1 s2 (fill_window dual s1 s2 (min w s1.length - 1)
      { minimiser_value := 0, minimiser_position_offset := 0, pos1 := 0, pos2 := 0,
        window_values := [] })
      = (valsOf dual s1 s2).getD (min w s1.length - 1) 0 := by
    have h := window_value_eq dual s1 s2 _ h2
      (fun hd => by rw [hfill.1, hfill.2.1, if_pos hd]) (by rw [hfill.1]; omega)
    rw [h, hfill.1]
  have hwin : (mkIterator dual s1 s2 w).window_values
      = (valsOf dual s1 s2).take (min w s1.length) := by
    rw [hstep]
    show (fill_window dual s1 s2 (min w s1.length - 1)
        { minimiser_value := 0, minimiser_position_offset := 0, pos1 := 0, pos2 := 0,
          window_values := [] }).window_values
        ++ [window_value dual s1 s2 (fill_window dual s1 s2 (min w s1.length - 1)
          { minimiser_value := 0, minimiser_position_offset := 0, pos1 := 0, pos2 := 0,
            window_values := [] })]
      = (valsOf dual s1 s2).take (min w s1.length)
    rw [hfill.2.2.2.2, hlastv]
    have hTT : (valsOf dual s1 s2).take (min w s1.length - 1)
        = ((valsOf dual s1 s2).take (min w s1.length)).take (min w s1.length - 1) := by
      rw [List.take_take]
      have hm : min (min w s1.length - 1) (min w s1.length) = min w s1.length - 1 := by
        omega
      rw [hm]
    have htcl : min w s1.length - 1
        < ((valsOf dual s1 s2).take (min w s1.length)).length := by
      simp only [List.length_take]
      omega
    rw [hTT,
      ← getD_take (valsOf dual s1 s2) (min w s1.length) (min w s1.length - 1) (by omega),
      take_concat_getD _ _ htcl]
    have harg : min w s1.length - 1 + 1 = min w s1.length := by omega
    rw [harg, List.take_take, Nat.min_self]
  have hmv : (mkIterator dual s1 s2 w).minimiser_value
      = (minElementLE ((valsOf dual s1 s2).take (min w s1.length))).1 := by
    have hr : (mkIterator dual s1 s2 w).minimiser_value
        = (minElementLE (mkIterator dual s1 s2 w).window_values).1 := by
      rw [hstep]
    rw [hr, hwin]
  have hmo : (mkIterator dual s1 s2 w).minimiser_position_offset
      = (minElementLE ((valsOf dual s1 s2).take (min w s1.length))).2 := by
    have hr : (mkIterator dual s1 s2 w).minimiser_position_offset
        = (minElementLE (mkIterator dual s1 s2 w).window_values).2 := by
      rw [hstep]
    rw [hr, hwin]
  have htlen : ((valsOf dual s1 s2).take (min w s1.length)).length = min w s1.length := by
    simp only [List.length_take]
    omega
  have hspec := minElementLE_spec ((valsOf dual s1 s2).take (min w s1.length))
    (by omega)
  refine ⟨?_, hpos1, hwin⟩
  refine ⟨⟨⟨h2, ?_, hW1, by rw [hpos1]; omega, by rw [hpos1]; omega, ?_⟩, ?_, ?_, ?_⟩, ?_⟩
  · intro hd
    rw [hpos1, hpos2, if_pos hd]
  · rw [hwin, hpos1, windowSlice_full _ _ hW1]
  · rw [hwin, hmo]
    exact hspec.1
  · rw [hwin, hmo, hmv]
    exact hspec.2.1
  · rw [hwin, hmv]
    intro i hi
    exact hspec.2.2.1 i hi
  · rw [hwin, hmv, hmo]
    intro i h1 h3
    exact hspec.2.2.2 i h1 h3

/-- The iterator states observable by a client: the result of the
constructor, followed by any number of `operator++` applications on states
that have not yet exhausted the primary range (incrementing an end iterator
is outside the contract of the source). -/
inductive Reachable (dual : Bool) (s1 s2 : List Nat) (w : Nat) : MinIterState → Prop
  | init : Reachable dual s1 s2 w (mkIterator dual s1 s2 w)
  | step {st : MinIterState} : Reachable dual s1 s2 w st → st.pos1 ≠ s1.length →
      Reachable dual s1 s2 w (next_unique_minimiser dual s1 s2 st)

/-- Every reachable iterator state is either exhausted or satisfies the
strong minimiser invariant. -/
lemma reachable_inv (dual : Bool) (s1 s2 : List Nat) (w : Nat) (hw : 1 ≤ w)
    (h2 : dual = true → s2.length = s1.length) (st : MinIterState)
    (hr : Reachable dual s1 s2 w st) :
    st.pos1 = s1.length ∨ StrongInv dual s1 s2 w st := by
  induction hr with
  | init =>
    rcases Nat.eq_zero_or_pos s1.length with hN | hN
    · left
      have hmk : mkIterator dual s1 s2 w =
          { minimiser_value := 0, minimiser_position_offset := 0, pos1 := 0, pos2 := 0,
            window_values := [] } := by
        unfold mkIterator window_first
        rw [if_pos (by omega)]
      rw [hmk, hN]
    · exact Or.inr (mkIterator_spec dual s1 s2 w hw hN h2).1
  | step hprev hne ih =>
    rcases ih with hNend | hstrong
    · exact absurd hNend hne
    · exact (next_unique_minimiser_spec dual s1 s2 w _ hstrong.toWeakInv).2

/-- From `WeakInv`, the tracked minimiser value is the minimum of the
current window slice. -/
lemma WeakInv.isMinOf {dual : Bool} {s1 s2 : List Nat} {w : Nat} {st : MinIterState}
    (h : WeakInv dual s1 s2 w st) :
    IsMinOf st.minimiser_value
      (windowSlice (valsOf dual s1 s2) (min w s1.length) st.pos1) := by
  constructor
  · rw [← h.hwin, ← h.hval]
    exact getD_mem _ _ h.hoff
  · rw [← h.hwin]
    exact le_all_of_forall_getD _ _ h.hmin

lemma emit_aux_end (dual : Bool) (s1 s2 : List Nat) (fuel : Nat) (st : MinIterState)
    (h : st.pos1 = s1.length) : emit_aux dual s1 s2 fuel st = [] := by
  cases fuel with
  | zero => rfl
  | succ fuel => simp [emit_aux, h]

/-- Iteration from any state satisfying `StrongInv`, with enough fuel,
emits at most one value per remaining position, and each emitted value is
the minimum of the window ending at some in-range position; the positions
are strictly increasing. -/
lemma emit_aux_spec (dual : Bool) (s1 s2 : List Nat) (w : Nat) :
    ∀ (fuel : Nat) (st : MinIterState), StrongInv dual s1 s2 w st →
      s1.length - st.pos1 ≤ fuel →
      ∃ es : List Nat,
        es.length = (emit_aux dual s1 s2 fuel st).length ∧
        (emit_aux dual s1 s2 fuel st).length ≤ s1.length - st.pos1 ∧
        es.Pairwise (· < ·) ∧
        (∀ e ∈ es, st.pos1 ≤ e ∧ e < s1.length) ∧
        (∀ k, k < es.length →
          IsMinOf ((emit_aux dual s1 s2 fuel st).getD k 0)
            (windowSlice (valsOf dual s1 s2) (min w s1.length) (es.getD k 0))) := by
  intro fuel
  induction fuel with
  | zero =>
    intro st hst hfuel
    exact absurd hst.hplt (by omega)
  | succ fuel ih =>
    intro st hst hfuel
    have hplt := hst.hplt
    have hne : ¬ (st.pos1 = s1.length) := by omega
    have hout : emit_aux dual s1 s2 (fuel + 1) st
        = deref st :: emit_aux dual s1 s2 fuel (next_unique_minimiser dual s1 s2 st) := by
      simp [emit_aux, hne]
    have hnu := next_unique_minimiser_spec dual s1 s2 w st hst.toWeakInv
    have hmin0 : IsMinOf (deref st)
        (windowSlice (valsOf dual s1 s2) (min w s1.length) st.pos1) :=
      hst.toWeakInv.isMinOf
    rcases hnu.2 with hdone | hstrong2
    · refine ⟨[st.pos1], ?_, ?_, ?_, ?_, ?_⟩
      · rw [hout, emit_aux_end dual s1 s2 fuel _ hdone]
        rfl
      · rw [hout, emit_aux_end dual s1 s2 fuel _ hdone]
        simp only [List.length_cons, List.length_nil]
        omega
      · simp
      · intro e he
        simp only [List.mem_singleton] at he
        subst he
        exact ⟨le_refl _, hplt⟩
      · intro k hk
        simp only [List.length_singleton] at hk
        have hk0 : k = 0 := by omega
        subst hk0
        rw [hout, emit_aux_end dual s1 s2 fuel _ hdone]
        exact hmin0
    · have hrec := ih (next_unique_minimiser dual s1 s2 st) hstrong2 (by omega)
      obtain ⟨es, hlen, hbound, hpw, hmem, hmins⟩ := hrec
      refine ⟨st.pos1 :: es, ?_, ?_, ?_, ?_, ?_⟩
      · rw [hout]
        simp only [List.length_cons, hlen]
      · rw [hout]
        simp only [List.length_cons]
        omega
      · rw [List.pairwise_cons]
        refine ⟨?_, hpw⟩
        intro e he
        have := hmem e he
        omega
      · intro e he
        rcases List.mem_cons.mp he with he0 | he1
        · subst he0
          exact ⟨le_refl _, hplt⟩
        · have := hmem e he1
          omega
      · intro k hk
        cases k with
        | zero =>
          rw [hout]
          simpa using hmin0
        | succ k =>
          rw [hout]
          simp only [List.getD_cons_succ]
          exact hmins k (by simpa using hk)

lemma next_unique_minimiser_eq_of_true (dual : Bool) (s1 s2 : List Nat)
    (st st2 : MinIterState) (h : next_minimiser dual s1 s2 st = (true, st2)) :
    next_unique_minimiser dual s1 s2 st = st2 := by
  show next_unique_minimiser_aux dual s1 s2 (s1.length + 1) st = st2
  simp only [next_unique_minimiser_aux, h]

/-! ### Claims -/

/-- C1: for every single source of length `N` and every `window_size w`
with `1 < w ≤ N`, iterating the minimiser view yields at most `N - w + 1`
values; every yielded value is the minimum of a contiguous window of
length `w` of the source (the window ending at position `es k`), and the
end positions of those windows are strictly increasing, so the values come
from windows in left-to-right order. -/
theorem minimiser_yields_window_minima_in_order (src : List Nat) (w : Nat)
    (h1 : 1 < w) (h2 : w ≤ src.length) :
    (minimiserSingle src w).length ≤ src.length - w + 1 ∧
    ∃ es : List Nat,
      es.length = (minimiserSingle src w).length ∧
      es.Pairwise (· < ·) ∧
      (∀ e ∈ es, w ≤ e + 1 ∧ e < src.length) ∧
      ∀ k, k < es.length →
        (windowSlice src w (es.getD k 0)).length = w ∧
        IsMinOf ((minimiserSingle src w).getD k 0) (windowSlice src w (es.getD k 0)) := by
  have hw1 : 1 ≤ w := by omega
  have hN : 1 ≤ src.length := by omega
  have hf : false = true → ([] : List Nat).length = src.length :=
    fun h => absurd h (by decide)
  have hmk := mkIterator_spec false src [] w hw1 hN hf
  have hW : min w src.length = w := Nat.min_eq_left h2
  have hvals : valsOf false src [] = src := rfl
  have hpos : (mkIterator false src [] w).pos1 = w - 1 := by
    rw [hmk.2.1, hW]
  have hms : minimiserSingle src w
      = emit_aux false src [] (src.length + 1) (mkIterator false src [] w) := rfl
  obtain ⟨es, hlen, hbound, hpw, hmem, hmins⟩ :=
    emit_aux_spec false src [] w (src.length + 1) (mkIterator false src [] w)
      hmk.1 (by omega)
  rw [hpos] at hbound hmem
  rw [hW, hvals] at hmins
  constructor
  · rw [hms]
    omega
  · refine ⟨es, by rw [hms, hlen], hpw, ?_, ?_⟩
    · intro e he
      have hb := hmem e he
      exact ⟨by omega, hb.2⟩
    · intro k hk
      have hminsk := hmins k hk
      have hesk := hmem (es.getD k 0) (getD_mem es k hk)
      refine ⟨windowSlice_length src w (es.getD k 0) (by omega) hesk.2, ?_⟩
      rw [hms]
      exact hminsk

/-- Witness for C1 at the documented single-source example. -/
theorem minimiser_yields_window_minima_in_order_witness :
    (1 < 4 ∧ 4 ≤ ([28, 100, 9, 23, 4, 1, 72, 37, 8] : List Nat).length) ∧
    ((minimiserSingle [28, 100, 9, 23, 4, 1, 72, 37, 8] 4).length
        ≤ ([28, 100, 9, 23, 4, 1, 72, 37, 8] : List Nat).length - 4 + 1 ∧
      ∃ es : List Nat,
        es.length = (minimiserSingle [28, 100, 9, 23, 4, 1, 72, 37, 8] 4).length ∧
        es.Pairwise (· < ·) ∧
        (∀ e ∈ es, 4 ≤ e + 1 ∧ e < ([28, 100, 9, 23, 4, 1, 72, 37, 8] : List Nat).length) ∧
        ∀ k, k < es.length →
          (windowSlice [28, 100, 9, 23, 4, 1, 72, 37, 8] 4 (es.getD k 0)).length = 4 ∧
          IsMinOf ((minimiserSingle [28, 100, 9, 23, 4, 1, 72, 37, 8] 4).getD k 0)
            (windowSlice [28, 100, 9, 23, 4, 1, 72, 37, 8] 4 (es.getD k 0))) :=
  ⟨⟨by decide, by decide⟩,
    minimiser_yields_window_minima_in_order [28, 100, 9, 23, 4, 1, 72, 37, 8] 4
      (by decide) (by decide)⟩

/-- C2: the single-source reference case: iterating the view over
`[28,100,9,23,4,1,72,37,8]` with window size 4 yields exactly `[9,4,1]`. -/
theorem minimiser_single_reference_case :
    minimiserSingle [28, 100, 9, 23, 4, 1, 72, 37, 8] 4 = [9, 4, 1] := by decide

/-- C3 counterexample: the dual-source reference inputs have lengths 9
and 8, so the dual constructor raises the length-mismatch
`invalid_argument` instead of constructing a view, contradicting the
claimed successful construction. -/
theorem dual_reference_construction_fails :
    mkDualView [28, 100, 9, 23, 4, 1, 72, 37, 8] [30, 2, 11, 101, 199, 73, 34, 900] 4
      = Except.error "The two ranges do not have the same size." ∧
    ([28, 100, 9, 23, 4, 1, 72, 37, 8] : List Nat).length
      ≠ ([30, 2, 11, 101, 199, 73, 34, 900] : List Nat).length := by
  constructor
  · rfl
  · decide

/-- C3 amended: constructing the dual view from these sources of lengths
9 and 8 fails with the length-mismatch error, so no value is yielded;
whenever a dual view is traversed, each window value is the minimum of the
two synchronized source values at the current cursor positions. -/
theorem dual_reference_amended :
    mkDualView [28, 100, 9, 23, 4, 1, 72, 37, 8] [30, 2, 11, 101, 199, 73, 34, 900] 4
      = Except.error "The two ranges do not have the same size." ∧
    ∀ (s1 s2 : List Nat) (st : MinIterState),
      window_value true s1 s2 st = min (s1.getD st.pos1 0) (s2.getD st.pos2 0) :=
  ⟨rfl, fun _ _ _ => rfl⟩

/-- C4: the full-window scan (`min_element` with `less_equal`), used for
the initial window and on every rescan, takes the first element as initial
best and replaces the best on less-or-equal, so it returns the window
minimum paired with the offset of its rightmost occurrence: everything
after the returned offset is strictly larger. -/
theorem full_scan_rightmost_minimum (x : Nat) (xs : List Nat) :
    (minElementLE (x :: xs)).2 < (x :: xs).length ∧
    (x :: xs).getD (minElementLE (x :: xs)).2 0 = (minElementLE (x :: xs)).1 ∧
    (∀ y ∈ x :: xs, (minElementLE (x :: xs)).1 ≤ y) ∧
    (∀ j, (minElementLE (x :: xs)).2 < j → j < (x :: xs).length →
      (minElementLE (x :: xs)).1 < (x :: xs).getD j 0) := by
  have h := minElementLE_spec (x :: xs) (by simp)
  exact ⟨h.1, h.2.1, le_all_of_forall_getD _ _ h.2.2.1, h.2.2.2⟩

/-- C5: in every iterator state reachable by construction followed by
increments, while the primary cursor has not reached the end, the tracked
offset is inside the stored window, the window holds the tracked value at
that offset, and the tracked pair is the minimum of the current window
under the rightmost-wins tie rule. -/
theorem reachable_minimiser_state_invariant (dual : Bool) (s1 s2 : List Nat) (w : Nat)
    (hw : 1 ≤ w) (h2 : dual = true → s2.length = s1.length)
    (st : MinIterState) (hr : Reachable dual s1 s2 w st)
    (hend : st.pos1 ≠ s1.length) :
    st.minimiser_position_offset < st.window_values.length ∧
    st.window_values.getD st.minimiser_position_offset 0 = st.minimiser_value ∧
    (∀ i, i < st.window_values.length →
      st.minimiser_value ≤ st.window_values.getD i 0) ∧
    (∀ i, st.minimiser_position_offset < i → i < st.window_values.length →
      st.minimiser_value < st.window_values.getD i 0) := by
  rcases reachable_inv dual s1 s2 w hw h2 st hr with hN | hs
  · exact absurd hN hend
  · exact ⟨hs.hoff, hs.hval, hs.hmin, hs.hright⟩

/-- Witness for C5 at the freshly constructed iterator over `[1,2,3]`
with window size 2. -/
theorem reachable_minimiser_state_invariant_witness :
    (mkIterator false [1, 2, 3] [] 2).minimiser_position_offset
        < (mkIterator false [1, 2, 3] [] 2).window_values.length ∧
    (mkIterator false [1, 2, 3] [] 2).window_values.getD
        (mkIterator false [1, 2, 3] [] 2).minimiser_position_offset 0
      = (mkIterator false [1, 2, 3] [] 2).minimiser_value ∧
    (∀ i, i < (mkIterator false [1, 2, 3] [] 2).window_values.length →
      (mkIterator false [1, 2, 3] [] 2).minimiser_value
        ≤ (mkIterator false [1, 2, 3] [] 2).window_values.getD i 0) ∧
    (∀ i, (mkIterator false [1, 2, 3] [] 2).minimiser_position_offset < i →
      i < (mkIterator false [1, 2, 3] [] 2).window_values.length →
      (mkIterator false [1, 2, 3] [] 2).minimiser_value
        < (mkIterator false [1, 2, 3] [] 2).window_values.getD i 0) :=
  reachable_minimiser_state_invariant false [1, 2, 3] [] 2 (by decide) (by decide)
    (mkIterator false [1, 2, 3] [] 2) Reachable.init (by decide)

/-- C6: when the evicted value held offset 0, the sliding step performs a
full rescan of the updated window and reports a change unconditionally, so
the increment stops at that round; the change is position-driven, not a
value comparison, so a numerically equal minimiser is re-emitted, as on
the source `[1,2,1,3]` with window size 2, which yields `[1,1]`. -/
theorem rescan_on_evicted_minimiser (dual : Bool) (s1 s2 : List Nat) (st : MinIterState)
    (h0 : st.minimiser_position_offset = 0) (hne : st.pos1 + 1 ≠ s1.length) :
    (next_minimiser dual s1 s2 st).1 = true ∧
    next_unique_minimiser dual s1 s2 st = (next_minimiser dual s1 s2 st).2 ∧
    (next_minimiser dual s1 s2 st).2.window_values
      = st.window_values.tail ++ [window_value dual s1 s2 (advance_window dual st)] ∧
    ((next_minimiser dual s1 s2 st).2.minimiser_value,
        (next_minimiser dual s1 s2 st).2.minimiser_position_offset)
      = minElementLE ((next_minimiser dual s1 s2 st).2.window_values) ∧
    minimiserSingle [1, 2, 1, 3] 2 = [1, 1] := by
  have heq := next_minimiser_eq_rescan dual s1 s2 st hne h0
  refine ⟨?_, ?_, ?_, ?_, by decide⟩
  · rw [heq]
  · rw [heq]
    exact next_unique_minimiser_eq_of_true dual s1 s2 st _ heq
  · rw [heq]
  · rw [heq]

/-- Witness for C6 on the iterator over `[1,2,9,9]` with window size 2,
whose initial tracked offset is 0. -/
theorem rescan_on_evicted_minimiser_witness :
    (next_minimiser false [1, 2, 9, 9] [] (mkIterator false [1, 2, 9, 9] [] 2)).1 = true ∧
    next_unique_minimiser false [1, 2, 9, 9] [] (mkIterator false [1, 2, 9, 9] [] 2)
      = (next_minimiser false [1, 2, 9, 9] [] (mkIterator false [1, 2, 9, 9] [] 2)).2 ∧
    (next_minimiser false [1, 2, 9, 9] [] (mkIterator false [1, 2, 9, 9] [] 2)).2.window_values
      = (mkIterator false [1, 2, 9, 9] [] 2).window_values.tail
        ++ [window_value false [1, 2, 9, 9] []
          (advance_window false (mkIterator false [1, 2, 9, 9] [] 2))] ∧
    ((next_minimiser false [1, 2, 9, 9] []
        (mkIterator false [1, 2, 9, 9] [] 2)).2.minimiser_value,
      (next_minimiser false [1, 2, 9, 9] []
        (mkIterator false [1, 2, 9, 9] [] 2)).2.minimiser_position_offset)
      = minElementLE ((next_minimiser false [1, 2, 9, 9] []
        (mkIterator false [1, 2, 9, 9] [] 2)).2.window_values) ∧
    minimiserSingle [1, 2, 1, 3] 2 = [1, 1] :=
  rescan_on_evicted_minimiser false [1, 2, 9, 9] [] (mkIterator false [1, 2, 9, 9] [] 2)
    (by decide) (by decide)

/-- C7: an error is raised exactly at construction, in exactly two cases:
the dual constructor succeeds if and only if the two sources have the same
length, and the single-source adaptor succeeds if and only if the window
size differs from 1.  Every traversal operation of the embedding
(`next_unique_minimiser`, `deref`, `iter_eq`, `emit_aux`) is a total
function, mirroring that the traversal members of the source contain no
throw; reaching the end of the source merely stops `emit_aux`. -/
theorem construction_errors_characterised :
    (∀ (s1 s2 : List Nat) (ws : Nat),
      (∃ v, mkDualView s1 s2 ws = Except.ok v) ↔ s1.length = s2.length) ∧
    (∀ (s : List Nat) (ws : Nat),
      (∃ v, minimiser_adaptor s ws = Except.ok v) ↔ ws ≠ 1) := by
  constructor
  · intro s1 s2 ws
    constructor
    · rintro ⟨v, hv⟩
      by_contra hne
      rw [mkDualView, if_pos hne] at hv
      simp at hv
    · intro heq
      exact ⟨_, by rw [mkDualView, if_neg (by omega)]⟩
  · intro s ws
    constructor
    · rintro ⟨v, hv⟩ h1
      rw [minimiser_adaptor, if_pos h1] at hv
      simp at hv
    · intro hne
      exact ⟨_, by rw [minimiser_adaptor, if_neg hne]⟩

/-- C8 counterexample: the empty source is shorter than window size 2,
yet iterating the view yields no value at all instead of exactly one. -/
theorem clamping_empty_source_counterexample :
    ([] : List Nat).length < 2 ∧ minimiserSingle [] 2 = [] ∧
      (minimiserSingle [] 2).length = 0 := by decide

/-- C8 amended: whenever the source is nonempty and its length `N` is
smaller than `window_size w`, the window size is clamped to `N` (the
stored window has length `N`) and iterating the view produces exactly one
value, the minimum of the entire source; the empty source yields no
values. -/
theorem clamping_short_source (src : List Nat) (w : Nat)
    (hne : src ≠ []) (hlt : src.length < w) :
    (mkIterator false src [] w).window_values.length = src.length ∧
    ∃ m, minimiserSingle src w = [m] ∧ IsMinOf m src := by
  have hN : 1 ≤ src.length := by
    cases src with
    | nil => exact absurd rfl hne
    | cons a l => simp
  have hw1 : 1 ≤ w := by omega
  have hf : false = true → ([] : List Nat).length = src.length :=
    fun h => absurd h (by decide)
  have hmk := mkIterator_spec false src [] w hw1 hN hf
  have hW : min w src.length = src.length := by omega
  have hvals : valsOf false src [] = src := rfl
  have hwin : (mkIterator false src [] w).window_values = src := by
    rw [hmk.2.2, hvals, hW, List.take_length]
  have hpos : (mkIterator false src [] w).pos1 = src.length - 1 := by
    rw [hmk.2.1, hW]
  have hms : minimiserSingle src w
      = emit_aux false src [] (src.length + 1) (mkIterator false src [] w) := rfl
  have hne2 : ¬ ((mkIterator false src [] w).pos1 = src.length) := by
    rw [hpos]
    omega
  have hstep1 : emit_aux false src [] (src.length + 1) (mkIterator false src [] w)
      = deref (mkIterator false src [] w)
        :: emit_aux false src [] src.length
          (next_unique_minimiser false src [] (mkIterator false src [] w)) := by
    simp [emit_aux, hne2]
  have hnm := next_minimiser_eq_end false src [] (mkIterator false src [] w)
    (by rw [hpos]; omega)
  have hnu := next_unique_minimiser_eq_of_true false src [] _ _ hnm
  have hend2 : (next_unique_minimiser false src [] (mkIterator false src [] w)).pos1
      = src.length := by
    rw [hnu]
    show (mkIterator false src [] w).pos1 + 1 = src.length
    rw [hpos]
    omega
  have hrest := emit_aux_end false src [] src.length _ hend2
  have hminside := hmk.1.toWeakInv.isMinOf
  rw [hvals, hW, hpos, windowSlice_full src src.length hN, List.take_length] at hminside
  refine ⟨by rw [hwin], deref (mkIterator false src [] w), ?_, hminside⟩
  rw [hms, hstep1, hrest]

/-- Witness for C8 at source `[3,1,2]` and window size 5. -/
theorem clamping_short_source_witness :
    (mkIterator false [3, 1, 2] [] 5).window_values.length
      = ([3, 1, 2] : List Nat).length ∧
    ∃ m, minimiserSingle [3, 1, 2] 5 = [m] ∧ IsMinOf m [3, 1, 2] :=
  clamping_short_source [3, 1, 2] 5 (by decide) (by decide)

/-- C9: iterator equality holds exactly when the primary cursors agree and
the stored windows have equal size; it never depends on either operand's
secondary cursor, because the source compares the right-hand operand's
secondary cursor against itself. -/
theorem iterator_equality_ignores_secondary (lhs rhs : MinIterState) :
    (iter_eq lhs rhs = true
      ↔ lhs.pos1 = rhs.pos1
        ∧ lhs.window_values.length = rhs.window_values.length) ∧
    ∀ p q : Nat,
      iter_eq { lhs with pos2 := p } { rhs with pos2 := q } = iter_eq lhs rhs := by
  constructor
  · simp [iter_eq]
  · intro p q
    simp [iter_eq]

/-- C10: the round that exhausts the view returns right after advancing
the cursors, before touching the window buffer or the tracked minimiser,
so the stored window, the tracked value and the tracked offset are those
of the last full window, and dereferencing the exhausted iterator still
returns the minimiser of that window. -/
theorem exhausting_increment_preserves_state (dual : Bool) (s1 s2 : List Nat)
    (st : MinIterState) (h : st.pos1 + 1 = s1.length) :
    next_minimiser dual s1 s2 st = (true, advance_window dual st) ∧
    next_unique_minimiser dual s1 s2 st = advance_window dual st ∧
    (advance_window dual st).window_values = st.window_values ∧
    (advance_window dual st).minimiser_value = st.minimiser_value ∧
    (advance_window dual st).minimiser_position_offset
      = st.minimiser_position_offset ∧
    deref (next_unique_minimiser dual s1 s2 st) = st.minimiser_value := by
  have heq := next_minimiser_eq_end dual s1 s2 st h
  have hnu := next_unique_minimiser_eq_of_true dual s1 s2 st _ heq
  refine ⟨heq, hnu, rfl, rfl, rfl, ?_⟩
  rw [hnu]
  rfl

/-- Witness for C10 on the iterator over `[5,7]` with window size 2,
whose cursor stands one step before the sentinel. -/
theorem exhausting_increment_preserves_state_witness :
    next_minimiser false [5, 7] [] (mkIterator false [5, 7] [] 2)
      = (true, advance_window false (mkIterator false [5, 7] [] 2)) ∧
    next_unique_minimiser false [5, 7] [] (mkIterator false [5, 7] [] 2)
      = advance_window false (mkIterator false [5, 7] [] 2) ∧
    (advance_window false (mkIterator false [5, 7] [] 2)).window_values
      = (mkIterator false [5, 7] [] 2).window_values ∧
    (advance_window false (mkIterator false [5, 7] [] 2)).minimiser_value
      = (mkIterator false [5, 7] [] 2).minimiser_value ∧
    (advance_window false (mkIterator false [5, 7] [] 2)).minimiser_position_offset
      = (mkIterator false [5, 7] [] 2).minimiser_position_offset ∧
    deref (next_unique_minimiser false [5, 7] [] (mkIterator false [5, 7] [] 2))
      = (mkIterator false [5, 7] [] 2).minimiser_value :=
  exhausting_increment_preserves_state false [5, 7] [] (mkIterator false [5, 7] [] 2)
    (by decide)
